import Mathlib

/-!
Shallow embedding of src/html2md.ts (a zero-dependency HTML → Markdown
converter) and proofs about it.

The source consumes a DOM tree produced by an external HTML parser
(DOMParser); here the tree is an explicit inductive type and the parse
step is outside the model, exactly as the spec declares it out of scope.
Text is manipulated at the level of List Char; the JavaScript regular
expressions of the source are transcribed as explicit character scans.
The recursive renderer is embedded with a fuel parameter (the source
recursion is unbounded, limited only by the machine stack); every
render function returns its default value when the fuel runs out, and
all statements either hold for every fuel or use a fuel large enough
for the concrete input.
-/

/-- JavaScript whitespace class. A character matched by the regex class
backslash-s of JavaScript (also the class trimmed by String.prototype.trim):
ASCII whitespace, NBSP, BOM, and the Unicode space separators. -/
def isJsWS (c : Char) : Bool :=
  c = ' ' || c = '\t' || c = '\n' || c = '\r' || c = '\x0b' || c = '\x0c' ||
  c = '\u00A0' || c = '\uFEFF' || c = '\u1680' ||
  (0x2000 ≤ c.toNat && c.toNat ≤ 0x200A) ||
  c = '\u2028' || c = '\u2029' || c = '\u202F' || c = '\u205F' || c = '\u3000'

/-- The horizontal whitespace class of collapseWhitespace: space, tab,
form feed, vertical tab (the source regex class is space backslash-t
backslash-f backslash-v). -/
def isHWS (c : Char) : Bool :=
  c = ' ' || c = '\t' || c = '\x0c' || c = '\x0b'

/-- The characters escaped by the second replace of escapeMd
(the regex class: asterisk, underscore, backtick, hash, pipe,
greater-than, hyphen). -/
def isEscTarget (c : Char) : Bool :=
  c = '*' || c = '_' || c = '`' || c = '#' || c = '|' || c = '>' || c = '-'

/-- escapeMd: first every backslash is doubled, then every character of
the target class gets a backslash prefixed.  Both source replaces are
per-character substitutions, and the backslashes introduced by the first
are not in the target class of the second, so their composition is this
single per-character map. -/
def escapeMdCore : List Char → List Char
  | [] => []
  | c :: rest =>
    (if c = '\\' then ['\\', '\\']
     else if isEscTarget c then ['\\', c]
     else [c]) ++ escapeMdCore rest

def escapeMd (s : String) : String := (escapeMdCore s.toList).asString

/-- Text-node whitespace handling of renderNode: each maximal run of
JavaScript whitespace is replaced by a single newline when the run
contains a newline, else by a single space (the source replaces
backslash-s-plus with a function of the match).  The first argument
tracks whether the scan is inside a run; the second whether that run has
seen a newline; the replacement character is emitted when the run ends. -/
def textWSGo : Bool → Bool → List Char → List Char
  | false, _, [] => []
  | true, sawNL, [] => [if sawNL then '\n' else ' ']
  | inRun, sawNL, c :: rest =>
    if isJsWS c then textWSGo true (sawNL || c = '\n') rest
    else
      (if inRun then [if sawNL then '\n' else ' '] else []) ++ c :: textWSGo false false rest

def textWS (s : String) : String := (textWSGo false false s.toList).asString

/-- collapseWhitespace: NBSP becomes a plain space, then each maximal
run of horizontal whitespace collapses to one space.  The space is
emitted on entering the run, the rest of the run is skipped. -/
def collapseHGo : Bool → List Char → List Char
  | _, [] => []
  | inRun, c :: rest =>
    if isHWS c then (if inRun then [] else [' ']) ++ collapseHGo true rest
    else c :: collapseHGo false rest

def collapseWhitespace (s : String) : String :=
  (collapseHGo false (s.toList.map (fun c => if c = ' ' then ' ' else c))).asString

/-- Each maximal run of newlines collapses to one space (the regex
newline-plus replaced by a space, used on table cell text). -/
def stripNLGo : Bool → List Char → List Char
  | _, [] => []
  | inRun, c :: rest =>
    if c = '\n' then (if inRun then [] else [' ']) ++ stripNLGo true rest
    else c :: stripNLGo false rest

def stripNewlines (s : String) : String := (stripNLGo false s.toList).asString

/-- normalizeLines: every run of three or more newlines collapses to
exactly two (the regex: three-or-more newlines replaced by two).  The
counter is the number of newlines already seen in the current run; from
the third one on, newlines are dropped. -/
def normNLGo : Nat → List Char → List Char
  | _, [] => []
  | run, c :: rest =>
    if c = '\n' then
      (if run ≥ 2 then [] else ['\n']) ++ normNLGo (run + 1) rest
    else c :: normNLGo 0 rest

def normalizeLines (s : String) : String := (normNLGo 0 s.toList).asString

/-- Literal list prefix test (used to transcribe regex literal
alternatives and substring tests). -/
def isPrefixL : List Char → List Char → Bool
  | [], _ => true
  | _ :: _, [] => false
  | p :: ps, c :: cs => p = c && isPrefixL ps cs

/-- Substring occurrence test: the pattern is a prefix at some position. -/
def hasSubstr (pat : List Char) : List Char → Bool
  | [] => isPrefixL pat []
  | c :: rest => isPrefixL pat (c :: rest) || hasSubstr pat rest

def hasSubstrS (pat s : String) : Bool := hasSubstr pat.toList s.toList

/-- Remove trailing JavaScript whitespace. -/
def dropTrailWS : List Char → List Char
  | [] => []
  | c :: rest =>
    match dropTrailWS rest with
    | [] => if isJsWS c then [] else [c]
    | r => c :: r

/-- JavaScript String.prototype.trim: strip leading and trailing
whitespace. -/
def jsTrimCore (l : List Char) : List Char := dropTrailWS (l.dropWhile isJsWS)

def jsTrim (s : String) : String := (jsTrimCore s.toList).asString

/-- Index of the last newline of a list, if any. -/
def lastNLIdx : List Char → Option Nat
  | [] => none
  | c :: rest =>
    match lastNLIdx rest with
    | some i => some (i + 1)
    | none => if c = '\n' then some 0 else none

/-- First replace of trimBlankLines: the anchored regex whitespace-plus
followed by a newline, at the start of the string, replaced by a single
newline.  Greedy backtracking takes the largest j with position j a
newline inside the whitespace prefix and at least one whitespace
character before it; the replaced span is positions 0..j. -/
def tblPass1 (l : List Char) : List Char :=
  match lastNLIdx (l.takeWhile isJsWS) with
  | some j => if 1 ≤ j then '\n' :: l.drop (j + 1) else l
  | none => l

/-- Second replace of trimBlankLines: a newline followed by one or more
whitespace characters running to the end of the string, replaced by a
single newline.  The leftmost such newline wins and everything after it
is dropped. -/
def tblPass2 : List Char → List Char
  | [] => []
  | c :: rest =>
    if c = '\n' && !rest.isEmpty && rest.all isJsWS then ['\n']
    else c :: tblPass2 rest

/-- Third replace of trimBlankLines: strip the leading newline run and
the trailing newline run. -/
def dropTrailNL : List Char → List Char
  | [] => []
  | c :: rest =>
    match dropTrailNL rest with
    | [] => if c = '\n' then [] else [c]
    | r => c :: r

def tblPass3 (l : List Char) : List Char := dropTrailNL (l.dropWhile (fun c => c = '\n'))

def trimBlankLinesCore (l : List Char) : List Char := tblPass3 (tblPass2 (tblPass1 l))

def trimBlankLines (s : String) : String := (trimBlankLinesCore s.toList).asString

/-- Line-ending normalization of the PRE branch: carriage return
optionally followed by a newline becomes a newline. -/
def crlfNormCore : List Char → List Char
  | [] => []
  | '\r' :: '\n' :: rest => '\n' :: crlfNormCore rest
  | '\r' :: rest => '\n' :: crlfNormCore rest
  | c :: rest => c :: crlfNormCore rest

def crlfNorm (s : String) : String := (crlfNormCore s.toList).asString

/-- Drop one trailing newline if present (the regex newline-at-end
replaced by nothing, inside codeFence). -/
def dropFinalNL (s : String) : String :=
  match s.toList.getLast? with
  | some '\n' => (s.toList.dropLast).asString
  | _ => s

/-- repeat of the source: the string ch repeated n times. -/
def repeatStr (ch : String) (n : Nat) : String := String.join (List.replicate n ch)

def toLowerStr (s : String) : String := (s.toList.map Char.toLower).asString

/-- split of JavaScript on a single separator character: always returns
at least one (possibly empty) piece. -/
def splitOnChar (sep : Char) : List Char → List (List Char)
  | [] => [[]]
  | c :: rest =>
    match splitOnChar sep rest with
    | [] => [[c]]
    | h :: t => if c = sep then [] :: h :: t else (c :: h) :: t

/-! ## The DOM model

The input of the renderer: an already parsed DOM tree.  Element tag
names are stored uppercase, as the HTML parser normalizes them.  The
constructor other stands for the node types the source ignores
(comments, processing instructions): renderNode returns the empty
string on them and element textContent skips them. -/

inductive Node where
  | text (value : String)
  | elem (tag : String) (attrs : List (String × String)) (children : List Node)
  | other

def tagOf : Node → String
  | .elem t _ _ => t
  | _ => ""

def childNodesOf : Node → List Node
  | .elem _ _ cs => cs
  | _ => []

def isElem : Node → Bool
  | .elem _ _ _ => true
  | _ => false

/-- el.children of the DOM: the element children only. -/
def elemChildren (n : Node) : List Node := (childNodesOf n).filter isElem

/-- getAttribute: the value of the first attribute with the given name,
or none. -/
def getAttr (el : Node) (name : String) : Option String :=
  match el with
  | .elem _ attrs _ => (attrs.find? (fun p => p.1 == name)).map (fun p => p.2)
  | _ => none

mutual
/-- textContent of a node: the concatenation of all descendant text
nodes (comment-like nodes contribute nothing). -/
def textContentOf : Node → String
  | .text s => s
  | .other => ""
  | .elem _ _ cs => textContentL cs
def textContentL : List Node → String
  | [] => ""
  | c :: cs => textContentOf c ++ textContentL cs
end

mutual
/-- querySelector with a bare tag-name selector: the first descendant
element (preorder document order, the root excluded) with the given
(uppercase) tag. -/
def queryDescL (tag : String) : List Node → Option Node
  | [] => none
  | c :: cs =>
    match queryDescNode tag c with
    | some e => some e
    | none => queryDescL tag cs
def queryDescNode (tag : String) : Node → Option Node
  | .elem t a ch => if t = tag then some (.elem t a ch) else queryDescL tag ch
  | _ => none
end

def queryDesc (tag : String) (el : Node) : Option Node := queryDescL tag (childNodesOf el)

/-- querySelectorAll with the scope-child selector for tr: the direct
element children with tag TR, in order. -/
def directTRs (el : Node) : List Node := (elemChildren el).filter (fun c => tagOf c = "TR")

/-- The fixed block-tag set of the source. -/
def blockTags : List String :=
  ["P", "DIV", "SECTION", "ARTICLE", "HEADER", "FOOTER", "MAIN", "ASIDE",
   "H1", "H2", "H3", "H4", "H5", "H6",
   "PRE", "BLOCKQUOTE", "UL", "OL", "LI", "TABLE", "THEAD", "TBODY", "TFOOT",
   "TR", "TD", "TH", "HR"]

def isBlockTag (tag : String) : Bool := blockTags.contains tag

/-! ## Inline style parsing and the emphasis classifiers -/

/-- One pair of the style attribute: split on the first colon, both
sides trimmed.  A pair without a colon gets an empty value (the source
reads an undefined second component and stores the empty string). -/
def stylePair (pair : List Char) : List Char × List Char :=
  match splitOnChar ':' pair with
  | [] => ([], [])
  | [k] => (jsTrimCore k, [])
  | k :: v :: _ => (jsTrimCore k, jsTrimCore v)

/-- The association list built by styleHas from a (lowercased) style
string: split on semicolons, keep the pairs with a nonempty key. -/
def styleMap (st : List Char) : List (List Char × List Char) :=
  ((splitOnChar ';' st).map stylePair).filter (fun p => !p.1.isEmpty)

/-- Lookup in the style map with last-duplicate-wins semantics
(the source overwrites a plain object field). -/
def styleLookup (st : List Char) (prop : List Char) : Option (List Char) :=
  ((styleMap st).reverse.find? (fun p => p.1 == prop)).map (fun p => p.2)

/-- styleHas: the style attribute (empty when absent) is lowercased and
parsed; the property's value, when present and nonempty, is tested with
the given regex transcription (an empty value is falsy in the source
and yields false). -/
def styleHas (el : Node) (prop : String) (test : List Char → Bool) : Bool :=
  match styleLookup (toLowerStr ((getAttr el "style").getD "")).toList prop.toList with
  | some v => if v.isEmpty then false else test v
  | none => false

/-- The bracket alternative of the font-weight regex: a digit six to
nine (the range contains exactly the four digits) followed by two
zeroes, at the head of the list. -/
def sixNine00 : List Char → Bool
  | a :: b :: c :: _ =>
    ('0' = b) && ('0' = c) && ('6' = a || '7' = a || '8' = a || '9' = a)
  | _ => false

/-- The font-weight regex test of isBoldLike: the alternation of the
literal bold and six-to-nine followed by two zeroes, anywhere in the
value. -/
def reBoldTest : List Char → Bool
  | [] => false
  | c :: rest => isPrefixL ['b', 'o', 'l', 'd'] (c :: rest) || sixNine00 (c :: rest) ||
      reBoldTest rest

/-- The font-style regex test of isItalicLike: italic or oblique as a
substring. -/
def reItalicTest (v : List Char) : Bool :=
  hasSubstr ['i', 't', 'a', 'l', 'i', 'c'] v || hasSubstr ['o', 'b', 'l', 'i', 'q', 'u', 'e'] v

/-- The text-decoration regex test of isStrikeLike: line-through as a
substring. -/
def reStrikeTest (v : List Char) : Bool :=
  hasSubstr ['l', 'i', 'n', 'e', '-', 't', 'h', 'r', 'o', 'u', 'g', 'h'] v

def isBoldLike (el : Node) : Bool :=
  tagOf el = "B" || tagOf el = "STRONG" || styleHas el "font-weight" reBoldTest

def isItalicLike (el : Node) : Bool :=
  tagOf el = "I" || tagOf el = "EM" || styleHas el "font-style" reItalicTest

def isStrikeLike (el : Node) : Bool :=
  tagOf el = "S" || tagOf el = "DEL" || tagOf el = "STRIKE" ||
  styleHas el "text-decoration" reStrikeTest

/-! ## Code language detection and fences -/

/-- A character of the capture class of the language regex: word
characters (ASCII letters, digits, underscore), hash, plus, dot,
hyphen. -/
def isLangChar (c : Char) : Bool :=
  c.isAlphanum || c = '_' || c = '#' || c = '+' || c = '.' || c = '-'

/-- The language regex scan: at each position try the alternative
language-dash then lang-dash, each followed by a nonempty greedy capture
of language characters; the first position where one alternative
succeeds wins. -/
def scanLang : List Char → Option (List Char)
  | [] => none
  | c :: rest =>
    let l := c :: rest
    if isPrefixL ['l', 'a', 'n', 'g', 'u', 'a', 'g', 'e', '-'] l
        && !((l.drop 9).takeWhile isLangChar).isEmpty then
      some ((l.drop 9).takeWhile isLangChar)
    else if isPrefixL ['l', 'a', 'n', 'g', '-'] l
        && !((l.drop 5).takeWhile isLangChar).isEmpty then
      some ((l.drop 5).takeWhile isLangChar)
    else scanLang rest

/-- getCodeLang: the capture of the language regex on the lowercased
class attribute. -/
def getCodeLang (el : Node) : Option String :=
  (scanLang (toLowerStr ((getAttr el "class").getD "")).toList).map List.asString

/-- codeFence: three backticks, four when the text contains a
triple-backtick run; an optional space-separated info string; one
trailing newline of the text is dropped. -/
def codeFence (text : String) (lang : Option String) : String :=
  let fence := if hasSubstrS "```" text then "````" else "```"
  let info := match lang with
    | some l => if l = "" then "" else " " ++ l
    | none => ""
  fence ++ info ++ "\n" ++ dropFinalNL text ++ "\n" ++ fence

/-- The heading test of the dispatcher: the tag is H followed by one
digit one to six. -/
def isHeadingTag (tag : String) : Bool :=
  match tag.toList with
  | ['H', d] => '1' ≤ d && d ≤ '6'
  | _ => false

/-- The heading level: the digit after H (only used under
isHeadingTag). -/
def headingLevel (tag : String) : Nat :=
  match tag.toList with
  | [_, d] => d.toNat - '0'.toNat
  | _ => 1

/-! ## Rendering context and URL resolution -/

/-- The rendering context of the source, plus one extra field: the
source resolves URLs with the platform's URL constructor, an external
collaborator; the embedding threads it as an oracle that returns none
where the constructor would throw. -/
structure Ctx where
  listDepth : Nat
  orderedStack : List Bool
  orderedIndex : List Nat
  baseUrl : Option String
  resolve : String → String → Option String

/-- absolutizeUrl: without a base (absent or empty, both falsy) the
string is returned untouched; with a base, standard resolution is
attempted and a failure (the catch branch) returns the original
string. -/
def absolutizeUrl (resolve : String → String → Option String)
    (href : String) (base : Option String) : String :=
  match base with
  | none => href
  | some b =>
    if b = "" then href
    else
      match resolve href b with
      | some u => u
      | none => href

/-- The optional title suffix of the image and link branches: absent or
empty titles (both falsy) contribute nothing. -/
def titlePart (title : Option String) : String :=
  match title with
  | some t => if t = "" then "" else " \"" ++ escapeMd t ++ "\""
  | none => ""

/-- Overwrite the last entry of the list (the in-place update of the
last orderedIndex slot in the source's list loop). -/
def setLast : List Nat → Nat → List Nat
  | [], _ => []
  | [_], v => [v]
  | x :: y :: rest, v => x :: setLast (y :: rest) v

/-- The last entry of the orderedIndex list (the counter of the current
depth). -/
def lastCounter (l : List Nat) : Nat := l.getLast?.getD 0

/-- A pipe-table row line. -/
def rowLine (cols : List String) : String :=
  "| " ++ String.intercalate " | " cols ++ " |"

/-- The cell elements of a table row: direct element children with tag
TD or TH. -/
def rowCells (tr : Node) : List Node :=
  (elemChildren tr).filter (fun c => tagOf c = "TD" || tagOf c = "TH")

def rowHasTH (tr : Node) : Bool := (rowCells tr).any (fun c => tagOf c = "TH")

/-- Row collection of renderTable: if any of thead/tbody/tfoot is found
among the descendants, their direct tr children in that order; else the
table's own direct tr children. -/
def collectTableRows (table : Node) : List Node :=
  let thead := queryDesc "THEAD" table
  let tbody := queryDesc "TBODY" table
  let tfoot := queryDesc "TFOOT" table
  if thead.isNone && tbody.isNone && tfoot.isNone then directTRs table
  else
    (match thead with | some s => directTRs s | none => []) ++
    (match tbody with | some s => directTRs s | none => []) ++
    (match tfoot with | some s => directTRs s | none => [])

/-! ## The renderer

A mutual block, structurally recursive on a fuel argument; every
recursive call runs at fuel one lower, and exhausted fuel produces the
branch's neutral value. -/

mutual

/-- renderNode of the source: the tag dispatch. -/
def renderNode : Nat → Node → Ctx → String
  | 0, _, _ => ""
  | _+1, .other, _ => ""
  | _+1, .text s, _ => escapeMd (textWS s)
  | n+1, .elem tag attrs children, ctx =>
    let el := Node.elem tag attrs children
    if tag = "SCRIPT" ∨ tag = "STYLE" ∨ tag = "NOSCRIPT" ∨ tag = "META" ∨ tag = "LINK" then ""
    else if tag = "BR" then "  \n"
    else if tag = "HR" then "\n\n---\n\n"
    else if tag = "IMG" then
      let alt := (getAttr el "alt").getD ""
      let src := (getAttr el "src").getD ""
      let title := getAttr el "title"
      let url := absolutizeUrl ctx.resolve src ctx.baseUrl
      "![" ++ escapeMd alt ++ "](" ++ url ++ titlePart title ++ ")"
    else if tag = "A" then
      let href := (getAttr el "href").getD ""
      let title := getAttr el "title"
      let text0 := trimBlankLines (renderInlineChildren n el ctx)
      let text := if text0 = "" then (getAttr el "href").getD "" else text0
      let url := absolutizeUrl ctx.resolve href ctx.baseUrl
      "[" ++ text ++ "](" ++ url ++ titlePart title ++ ")"
    else if tag = "CODE" then
      let raw := textContentOf el
      let ticks := if hasSubstrS "`" raw then "``" else "`"
      ticks ++ raw ++ ticks
    else if tag = "PRE" then
      let code := queryDesc "CODE" el
      let text := crlfNorm (match code with | some c => textContentOf c | none => textContentOf el)
      let lang := match code with | some c => getCodeLang c | none => none
      "\n\n" ++ codeFence text lang ++ "\n\n"
    else if isHeadingTag tag then
      let hashes := repeatStr "#" (max 1 (min 6 (headingLevel tag)))
      let content := trimBlankLines (renderInlineChildren n el ctx)
      "\n\n" ++ hashes ++ " " ++ content ++ "\n\n"
    else if tag = "BLOCKQUOTE" then
      let inner := trimBlankLines (renderInlineChildren n el ctx)
      let prefixed := String.intercalate "\n"
        (((splitOnChar '\n' inner.toList).map List.asString).map (fun l => "> " ++ l))
      "\n\n" ++ prefixed ++ "\n\n"
    else if tag = "UL" then "\n" ++ renderList n el ctx false ++ "\n\n"
    else if tag = "OL" then "\n" ++ renderList n el ctx true ++ "\n\n"
    else if tag = "TABLE" then "\n\n" ++ renderTable n el ctx ++ "\n\n"
    else if isBoldLike el || isItalicLike el || isStrikeLike el then
      let content := renderInlineChildren n el ctx
      let o1 := if isBoldLike el then "**" ++ content ++ "**" else content
      let o2 := if isItalicLike el then "*" ++ o1 ++ "*" else o1
      let o3 := if isStrikeLike el then "~~" ++ o2 ++ "~~" else o2
      o3
    else if isBlockTag tag then
      let inner := trimBlankLines (renderInlineChildren n el ctx)
      if inner = "" then "" else "\n\n" ++ inner ++ "\n\n"
    else renderInlineChildren n el ctx

/-- renderInlineChildren: concatenate the rendered child nodes. -/
def renderInlineChildren : Nat → Node → Ctx → String
  | 0, _, _ => ""
  | n+1, el, ctx => (childNodesOf el).foldl (fun acc c => acc ++ renderNode n c ctx) ""

/-- renderList: the li children, a context one list level deeper with a
fresh counter slot, items joined with single newlines. -/
def renderList : Nat → Node → Ctx → Bool → String
  | 0, _, _, _ => ""
  | n+1, el, ctx, ordered =>
    let items := (elemChildren el).filter (fun ch => tagOf ch = "LI")
    let next : Ctx := ⟨ctx.listDepth + 1, ctx.orderedStack ++ [ordered],
      ctx.orderedIndex ++ [0], ctx.baseUrl, ctx.resolve⟩
    String.intercalate "\n" (renderListLoop n items next (repeatStr "  " ctx.listDepth) ordered)

/-- The body of renderList's loop: per item, bump the counter of the
current depth, prefix the bullet to the first line, indent continuation
lines two spaces past the item indent. -/
def renderListLoop : Nat → List Node → Ctx → String → Bool → List String
  | 0, _, _, _, _ => []
  | _+1, [], _, _, _ => []
  | n+1, li :: items, next, indent, ordered =>
    let idx := lastCounter next.orderedIndex + 1
    let next' : Ctx := ⟨next.listDepth, next.orderedStack,
      setLast next.orderedIndex idx, next.baseUrl, next.resolve⟩
    let bullet := if ordered then toString idx ++ ". " else "- "
    let contentMd := trimBlankLines (renderListItem n li next')
    let lines := (splitOnChar '\n' contentMd.toList).map List.asString
    let first := indent ++ bullet ++ lines.headD ""
    let rest := (lines.drop 1).map (fun l => indent ++ "  " ++ l)
    String.intercalate "\n" (first :: rest) :: renderListLoop n items next' indent ordered

/-- renderListItem: the li's children as block content, empty fragments
skipped, joined with single newlines, triple newlines collapsed. -/
def renderListItem : Nat → Node → Ctx → String
  | 0, _, _ => ""
  | n+1, li, ctx =>
    let parts := ((childNodesOf li).map (fun c => renderNode n c ctx)).filter
      (fun md => md ≠ "")
    normalizeLines (String.intercalate "\n" parts)

/-- renderTable: rows from the section elements or the table itself; the
header is the first row with a th cell, else the first row; a bare ---
separator per header column; the rows are emitted as pipe lines. -/
def renderTable : Nat → Node → Ctx → String
  | 0, _, _ => ""
  | n+1, table, ctx =>
    let rows := collectTableRows table
    let texts := fun (tr : Node) => (rowCells tr).map (fun td => cellText n td ctx)
    let grid := rows.map texts
    let headerCells := (rows.find? rowHasTH).map texts
    let head := match headerCells with | some h => h | none => grid.headD []
    let body := if headerCells.isSome then grid else grid.drop 1
    if head.isEmpty then ""
    else
      let sep := head.map (fun _ => "---")
      String.intercalate "\n" (rowLine head :: rowLine sep :: body.map rowLine)

/-- The cell text of renderTable: inline-only rendering, blank-trimmed,
whitespace collapsed, newlines flattened to spaces, trimmed. -/
def cellText : Nat → Node → Ctx → String
  | 0, _, _ => ""
  | n+1, td, ctx =>
    jsTrim (stripNewlines (collapseWhitespace (trimBlankLines (renderInlineChildren n td ctx))))

end

/-! ## The top-level conversion -/

/-- The final normalization of htmlToMarkdown: collapse triple newlines
after trimming blank edge lines, then trim and append the single
trailing newline. -/
def finalizeOut (l : List Char) : List Char :=
  jsTrimCore (normNLGo 0 (trimBlankLinesCore l)) ++ ['\n']

/-- htmlToMarkdown: empty and whitespace-only input short-circuits to
the empty string; otherwise the parsed top-level nodes (the children of
the wrapper element the source builds around the fragment — parsing
itself is the external collaborator) are rendered in a root context and
the result is normalized, trimmed, and newline-terminated. -/
def htmlToMarkdown (fuel : Nat) (html : String) (nodes : List Node)
    (baseUrl : Option String) (resolve : String → String → Option String) : String :=
  if jsTrimCore html.toList = [] then ""
  else
    let ctx : Ctx := ⟨0, [], [], baseUrl, resolve⟩
    let out := nodes.foldl (fun acc c => acc ++ renderNode fuel c ctx) ""
    (finalizeOut out.toList).asString

/-! ## Definitions used by the statements -/

/-- The three-newline pattern: a run of three or more newlines contains
it as a substring. -/
def nl3 : List Char := ['\n', '\n', '\n']

/-- Every Markdown-significant character (the escape targets and the
backslash) occurs only as the second character of a backslash pair:
the shape escapeMd guarantees. -/
def wellEscaped : List Char → Bool
  | [] => true
  | [c] => !(isEscTarget c) && !(c = '\\')
  | c :: d :: rest =>
    if c = '\\' then wellEscaped rest
    else !(isEscTarget c) && wellEscaped (d :: rest)

/-- The string ends with exactly one newline: its last character is a
newline and the character before it (a space when there is none) is
not. -/
def endsWithOneNL (s : String) : Bool :=
  match s.toList.reverse with
  | c :: rest => c = '\n' && !(rest.headD ' ' = '\n')
  | [] => false

/-- The string starts with a newline character. -/
def startsWithNL (s : String) : Bool :=
  match s.toList with
  | c :: _ => c = '\n'
  | [] => false

/-- The emphasis wrapping of the dispatcher, as an explicit function:
bold markers applied first (innermost), then italic, then strike
(outermost), each independently around the same content. -/
def emphasisWrap (el : Node) (content : String) : String :=
  let o1 := if isBoldLike el then "**" ++ content ++ "**" else content
  let o2 := if isItalicLike el then "*" ++ o1 ++ "*" else o1
  if isStrikeLike el then "~~" ++ o2 ++ "~~" else o2

/-- The per-item lines renderList produces for an ordered list: the
loop over the li children in the depth-extended context. -/
def orderedItemLines (fuel : Nat) (el : Node) (ctx : Ctx) : List String :=
  renderListLoop fuel ((elemChildren el).filter (fun ch => tagOf ch = "LI"))
    ⟨ctx.listDepth + 1, ctx.orderedStack ++ [true], ctx.orderedIndex ++ [0],
      ctx.baseUrl, ctx.resolve⟩
    (repeatStr "  " ctx.listDepth) true

/-- The texts of a table row's cells, as renderTable computes them. -/
def tableRowTexts (fuel : Nat) (ctx : Ctx) (tr : Node) : List String :=
  (rowCells tr).map (fun td => cellText fuel td ctx)

/-- The grid of cell texts over the collected rows. -/
def tableGrid (fuel : Nat) (table : Node) (ctx : Ctx) : List (List String) :=
  (collectTableRows table).map (tableRowTexts fuel ctx)

/-- The header cells: the texts of the first collected row containing a
th cell, if any. -/
def tableHeaderCells (fuel : Nat) (table : Node) (ctx : Ctx) : Option (List String) :=
  ((collectTableRows table).find? rowHasTH).map (tableRowTexts fuel ctx)

/-- The determined header row of the pipe table. -/
def tableHead (fuel : Nat) (table : Node) (ctx : Ctx) : List String :=
  match tableHeaderCells fuel table ctx with
  | some h => h
  | none => (tableGrid fuel table ctx).headD []

/-- The body rows of the pipe table: the whole grid when a th row
determined the header, else the grid without its first row. -/
def tableBody (fuel : Nat) (table : Node) (ctx : Ctx) : List (List String) :=
  if (tableHeaderCells fuel table ctx).isSome then tableGrid fuel table ctx
  else (tableGrid fuel table ctx).drop 1

/-! ## Concrete inputs used by the claims -/

/-- A URL resolver that always fails; URLs are then always passed
through untouched. -/
def r0 : String → String → Option String := fun _ _ => none

/-- The root rendering context with no base URL. -/
def ctx0 : Ctx := ⟨0, [], [], none, r0⟩

/-- The tree of the markup ul li a, li b with a nested ul li c. -/
def ulNested : Node :=
  .elem "UL" [] [
    .elem "LI" [] [.text "a"],
    .elem "LI" [] [.text "b", .elem "UL" [] [.elem "LI" [] [.text "c"]]]]

/-- The tree of the markup ol li x, li y. -/
def olXY : Node := .elem "OL" [] [.elem "LI" [] [.text "x"], .elem "LI" [] [.text "y"]]

/-- The tree of the markup ol li z. -/
def olZ : Node := .elem "OL" [] [.elem "LI" [] [.text "z"]]

/-- A table whose first row has two th cells and whose second row has
three td cells. -/
def tbl3 : Node :=
  .elem "TABLE" [] [
    .elem "TR" [] [.elem "TH" [] [.text "A"], .elem "TH" [] [.text "B"]],
    .elem "TR" [] [.elem "TD" [] [.text "1"], .elem "TD" [] [.text "2"],
      .elem "TD" [] [.text "3"]]]

/-- A span whose style sets font-weight to the numeric value 650. -/
def span650 : Node := .elem "SPAN" [("style", "font-weight:650")] [.text "x"]

/-- A span whose style sets font-weight bold and font-style italic. -/
def spanBoldItalic : Node :=
  .elem "SPAN" [("style", "font-weight:bold;font-style:italic")] [.text "x"]

/-- A lone script element: rendered to the empty fragment. -/
def scriptNode : Node := .elem "SCRIPT" [] [.text "x"]

/-! ## Helper lemmas: strings and lists -/

theorem toList_asString (l : List Char) : (l.asString).toList = l := rfl

theorem toList_append (s t : String) : (s ++ t).toList = s.toList ++ t.toList := rfl

theorem asString_empty_iff (l : List Char) : l.asString = "" ↔ l = [] := by
  constructor
  · intro h
    have h2 : (l.asString).toList = ("" : String).toList := by rw [h]
    simpa using h2
  · intro h
    rw [h]
    rfl

/-! ## Helper lemmas: the triple-newline invariant -/

theorem hasSubstr_cons (pat : List Char) (c : Char) (rest : List Char) :
    hasSubstr pat (c :: rest) = (isPrefixL pat (c :: rest) || hasSubstr pat rest) := rfl

theorem isPrefixL_trans : ∀ (p a b : List Char), isPrefixL a b = true →
    isPrefixL p a = true → isPrefixL p b = true := by
  intro p
  induction p with
  | nil => intro a b _ _; rfl
  | cons c ps ih =>
    intro a b hab hpa
    cases a with
    | nil => simp [isPrefixL] at hpa
    | cons a0 as =>
      cases b with
      | nil => simp [isPrefixL] at hab
      | cons b0 bs =>
        simp only [isPrefixL, Bool.and_eq_true, decide_eq_true_eq] at hab hpa ⊢
        exact ⟨hpa.1.trans hab.1, ih as bs hab.2 hpa.2⟩

theorem no_triple_of_isPrefixL : ∀ (a b : List Char), isPrefixL a b = true →
    hasSubstr nl3 b = false → hasSubstr nl3 a = false := by
  intro a
  induction a with
  | nil => intro b _ _; rfl
  | cons c as ih =>
    intro b hab hb
    cases b with
    | nil => simp [isPrefixL] at hab
    | cons b0 bs =>
      rw [hasSubstr_cons] at hb ⊢
      rw [Bool.or_eq_false_iff] at hb ⊢
      have habs : isPrefixL as bs = true := by
        simp only [isPrefixL, Bool.and_eq_true] at hab
        exact hab.2
      refine ⟨?_, ih bs habs hb.2⟩
      by_contra hx
      rw [Bool.not_eq_false] at hx
      have : isPrefixL nl3 (b0 :: bs) = true := isPrefixL_trans _ _ _ hab hx
      rw [hb.1] at this
      exact Bool.false_ne_true this

theorem dropWhile_no_triple (p : Char → Bool) : ∀ (l : List Char),
    hasSubstr nl3 l = false → hasSubstr nl3 (l.dropWhile p) = false := by
  intro l
  induction l with
  | nil => intro h; exact h
  | cons c rest ih =>
    intro h
    rw [hasSubstr_cons, Bool.or_eq_false_iff] at h
    rw [List.dropWhile_cons]
    by_cases hp : p c = true
    · simp only [hp, if_true]
      exact ih h.2
    · simp only [Bool.not_eq_true] at hp
      simp only [hp, Bool.false_eq_true, if_false]
      rw [hasSubstr_cons, Bool.or_eq_false_iff]
      exact h

theorem dropTrailWS_isPrefixL : ∀ l : List Char, isPrefixL (dropTrailWS l) l = true := by
  intro l
  induction l with
  | nil => rfl
  | cons c rest ih =>
    show isPrefixL (dropTrailWS (c :: rest)) (c :: rest) = true
    rw [dropTrailWS]
    cases hdt : dropTrailWS rest with
    | nil =>
      by_cases hw : isJsWS c = true
      · simp [hw, isPrefixL]
      · simp only [Bool.not_eq_true] at hw
        simp [hw, isPrefixL]
    | cons x xs =>
      rw [hdt] at ih
      simp [isPrefixL, ih]

theorem dropTrailWS_no_triple (l : List Char) (h : hasSubstr nl3 l = false) :
    hasSubstr nl3 (dropTrailWS l) = false :=
  no_triple_of_isPrefixL _ _ (dropTrailWS_isPrefixL l) h

theorem jsTrimCore_no_triple (l : List Char) (h : hasSubstr nl3 l = false) :
    hasSubstr nl3 (jsTrimCore l) = false :=
  dropTrailWS_no_triple _ (dropWhile_no_triple _ _ h)

theorem one_nl_prefix_false (x : List Char) (h : x.head? ≠ some '\n') :
    isPrefixL ['\n'] x = false := by
  cases x with
  | nil => rfl
  | cons c cs =>
    simp only [List.head?_cons, ne_eq, Option.some.injEq] at h
    have h2 : ¬ ('\n' = c) := fun heq => h heq.symm
    simp [isPrefixL, h2]

theorem normNLGo_head_ne_nl : ∀ (l : List Char) (run : Nat), 2 ≤ run →
    (normNLGo run l).head? ≠ some '\n' := by
  intro l
  induction l with
  | nil => intro run _; simp [normNLGo]
  | cons c rest ih =>
    intro run hrun
    by_cases hc : c = '\n'
    · rw [normNLGo, if_pos (by exact_mod_cast hc), if_pos hrun]
      exact ih (run + 1) (hrun.trans (Nat.le_succ run))
    · rw [normNLGo, if_neg (by exact_mod_cast hc)]
      simp [hc]

theorem normNLGo_two_prefix_false : ∀ (l : List Char) (run : Nat), 1 ≤ run →
    isPrefixL ['\n', '\n'] (normNLGo run l) = false := by
  intro l
  induction l with
  | nil => intro run _; rfl
  | cons c rest ih =>
    intro run hrun
    by_cases hc : c = '\n'
    · by_cases hr : 2 ≤ run
      · rw [normNLGo, if_pos (by exact_mod_cast hc), if_pos hr]
        exact ih (run + 1) (hrun.trans (Nat.le_succ run))
      · rw [normNLGo, if_pos (by exact_mod_cast hc), if_neg hr]
        show isPrefixL ['\n', '\n'] ('\n' :: normNLGo (run + 1) rest) = false
        have hrun2 : 2 ≤ run + 1 := by omega
        simp only [isPrefixL, decide_eq_true_eq]
        rw [one_nl_prefix_false _ (normNLGo_head_ne_nl rest (run + 1) hrun2)]
        simp
    · rw [normNLGo, if_neg (by exact_mod_cast hc)]
      have h2 : ¬ ('\n' = c) := fun heq => hc heq.symm
      simp [isPrefixL, h2]

theorem normNLGo_no_triple : ∀ (l : List Char) (run : Nat),
    hasSubstr nl3 (normNLGo run l) = false := by
  intro l
  induction l with
  | nil => intro run; rfl
  | cons c rest ih =>
    intro run
    by_cases hc : c = '\n'
    · by_cases hr : 2 ≤ run
      · rw [normNLGo, if_pos (by exact_mod_cast hc), if_pos hr]
        exact ih (run + 1)
      · rw [normNLGo, if_pos (by exact_mod_cast hc), if_neg hr]
        show hasSubstr nl3 ('\n' :: normNLGo (run + 1) rest) = false
        rw [hasSubstr_cons, Bool.or_eq_false_iff]
        refine ⟨?_, ih (run + 1)⟩
        show isPrefixL ['\n', '\n', '\n'] ('\n' :: normNLGo (run + 1) rest) = false
        simp only [isPrefixL, decide_eq_true_eq]
        rw [normNLGo_two_prefix_false rest (run + 1) (by omega)]
        simp
    · rw [normNLGo, if_neg (by exact_mod_cast hc)]
      rw [hasSubstr_cons, Bool.or_eq_false_iff]
      refine ⟨?_, ih 0⟩
      show isPrefixL ['\n', '\n', '\n'] (c :: normNLGo 0 rest) = false
      have h2 : ¬ ('\n' = c) := fun heq => hc heq.symm
      simp [isPrefixL, h2]

theorem append_nl_triple_cases : ∀ l : List Char,
    hasSubstr nl3 (l ++ ['\n']) = true →
    hasSubstr nl3 l = true ∨ ∃ l2, l = l2 ++ ['\n', '\n'] := by
  intro l
  induction l with
  | nil => intro h; exact absurd h (by decide)
  | cons c rest ih =>
    intro h
    rw [List.cons_append, hasSubstr_cons, Bool.or_eq_true] at h
    rcases h with hpre | hsub
    · simp only [nl3, isPrefixL, Bool.and_eq_true, decide_eq_true_eq] at hpre
      obtain ⟨hc, hpre2⟩ := hpre
      cases rest with
      | nil => exact absurd hpre2 (by decide)
      | cons d ds =>
        cases ds with
        | nil =>
          simp only [List.cons_append, List.nil_append, isPrefixL, Bool.and_eq_true,
            decide_eq_true_eq] at hpre2
          right
          refine ⟨[], ?_⟩
          simp [← hc, ← hpre2.1]
        | cons e es =>
          simp only [List.cons_append, isPrefixL, Bool.and_eq_true,
            decide_eq_true_eq] at hpre2
          left
          rw [hasSubstr_cons, Bool.or_eq_true]
          left
          simp [nl3, isPrefixL, ← hc, ← hpre2.1, ← hpre2.2.1]
    · rcases ih hsub with h1 | ⟨l2, h2⟩
      · left
        rw [hasSubstr_cons, Bool.or_eq_true]
        right
        exact h1
      · right
        exact ⟨c :: l2, by rw [h2, List.cons_append]⟩

theorem dropTrailWS_last_not_ws : ∀ (l : List Char) (c : Char),
    (dropTrailWS l).getLast? = some c → isJsWS c = false := by
  intro l
  induction l with
  | nil => intro c h; simp [dropTrailWS] at h
  | cons a rest ih =>
    intro c h
    rw [dropTrailWS] at h
    cases hdt : dropTrailWS rest with
    | nil =>
      rw [hdt] at h
      by_cases hw : isJsWS a = true
      · simp [hw] at h
      · simp only [Bool.not_eq_true] at hw
        simp only [hw, Bool.false_eq_true, if_false, List.getLast?_singleton,
          Option.some.injEq] at h
        rw [← h]
        exact hw
    | cons x xs =>
      rw [hdt] at h
      rw [List.getLast?_cons_cons] at h
      rw [← hdt] at h
      exact ih c h

theorem finalizeOut_no_triple (l : List Char) : hasSubstr nl3 (finalizeOut l) = false := by
  by_contra hx
  rw [Bool.not_eq_false] at hx
  rw [finalizeOut] at hx
  rcases append_nl_triple_cases _ hx with h1 | ⟨l2, h2⟩
  · have : hasSubstr nl3 (jsTrimCore (normNLGo 0 (trimBlankLinesCore l))) = false :=
      jsTrimCore_no_triple _ (normNLGo_no_triple _ 0)
    rw [h1] at this
    exact absurd this (by decide)
  · have hlast : (jsTrimCore (normNLGo 0 (trimBlankLinesCore l))).getLast? = some '\n' := by
      rw [h2]
      have : l2 ++ ['\n', '\n'] = (l2 ++ ['\n']) ++ ['\n'] := by simp
      rw [this, List.getLast?_concat]
    have := dropTrailWS_last_not_ws _ _ hlast
    exact absurd this (by decide)

theorem dropWhile_head_not_ws : ∀ (l : List Char) (c : Char),
    (l.dropWhile isJsWS).head? = some c → isJsWS c = false := by
  intro l
  induction l with
  | nil => intro c h; simp at h
  | cons a rest ih =>
    intro c h
    rw [List.dropWhile_cons] at h
    by_cases hw : isJsWS a = true
    · rw [if_pos hw] at h
      exact ih c h
    · simp only [Bool.not_eq_true] at hw
      rw [hw] at h
      simp only [Bool.false_eq_true, if_false, List.head?_cons, Option.some.injEq] at h
      rw [← h]
      exact hw

theorem dropTrailWS_head : ∀ (l : List Char) (c : Char),
    (dropTrailWS l).head? = some c → l.head? = some c := by
  intro l
  induction l with
  | nil => intro c h; simp [dropTrailWS] at h
  | cons a rest _ =>
    intro c h
    rw [dropTrailWS] at h
    cases hdt : dropTrailWS rest with
    | nil =>
      rw [hdt] at h
      by_cases hw : isJsWS a = true
      · simp [hw] at h
      · simp only [Bool.not_eq_true] at hw
        simp only [hw, Bool.false_eq_true, if_false, List.head?_cons] at h
        rw [List.head?_cons]
        exact h
    | cons x xs =>
      rw [hdt] at h
      simp only [List.head?_cons] at h ⊢
      exact h

theorem jsTrimCore_head_not_ws (l : List Char) (c : Char)
    (h : (jsTrimCore l).head? = some c) : isJsWS c = false :=
  dropWhile_head_not_ws l c (dropTrailWS_head _ c h)

theorem finalizeOut_ends_one (l : List Char) :
    endsWithOneNL ((finalizeOut l).asString) = true := by
  rw [endsWithOneNL]
  have ht : ((finalizeOut l).asString).toList =
      jsTrimCore (normNLGo 0 (trimBlankLinesCore l)) ++ ['\n'] := rfl
  rw [ht, List.reverse_append]
  show ((('\n' : Char) = '\n' : Bool) &&
    !((jsTrimCore (normNLGo 0 (trimBlankLinesCore l))).reverse.headD ' ' = '\n')) = true
  cases hrev : (jsTrimCore (normNLGo 0 (trimBlankLinesCore l))).reverse with
  | nil => decide
  | cons c cs =>
    have hlast : (jsTrimCore (normNLGo 0 (trimBlankLinesCore l))).getLast? = some c := by
      rw [← List.head?_reverse, hrev, List.head?_cons]
    have hcw : isJsWS c = false := dropTrailWS_last_not_ws _ c hlast
    have hcne : ¬ (c = '\n') := by
      intro hx
      rw [hx] at hcw
      exact absurd hcw (by decide)
    simp [hcne]

theorem finalizeOut_starts_not_nl (l : List Char)
    (h : (finalizeOut l).asString ≠ "\n") :
    startsWithNL ((finalizeOut l).asString) = false := by
  rw [startsWithNL]
  have ht : ((finalizeOut l).asString).toList =
      jsTrimCore (normNLGo 0 (trimBlankLinesCore l)) ++ ['\n'] := rfl
  cases hY : jsTrimCore (normNLGo 0 (trimBlankLinesCore l)) with
  | nil =>
    exfalso
    apply h
    show (jsTrimCore (normNLGo 0 (trimBlankLinesCore l)) ++ ['\n']).asString = "\n"
    rw [hY]
    rfl
  | cons c cs =>
    rw [ht, hY, List.cons_append]
    have hhead : (jsTrimCore (normNLGo 0 (trimBlankLinesCore l))).head? = some c := by
      rw [hY, List.head?_cons]
    have hcw : isJsWS c = false := jsTrimCore_head_not_ws _ c hhead
    have hcne : ¬ (c = '\n') := by
      intro hx
      rw [hx] at hcw
      exact absurd hcw (by decide)
    simp [hcne]

/-- C2: for every fuel, input HTML string, parsed node tree, base URL
option and URL resolver, the string htmlToMarkdown returns contains no
run of three or more consecutive newline characters (the three-newline
pattern nl3 is not a substring of it), including when a pre or code
block's literal text contains such a run: normalizeLines runs over the
whole concatenated output before trimming. -/
theorem C2_no_triple_newline (fuel : Nat) (html : String) (nodes : List Node)
    (b : Option String) (r : String → String → Option String) :
    hasSubstr nl3 (htmlToMarkdown fuel html nodes b r).toList = false := by
  rw [htmlToMarkdown]
  by_cases h : jsTrimCore html.toList = []
  · rw [if_pos h]
    decide
  · rw [if_neg h]
    exact finalizeOut_no_triple _

/-- C6 (amended): empty or whitespace-only input yields the empty
string with no trailing newline; every non-empty output ends with
exactly one trailing newline; and every non-empty output other than the
bare newline produced when the rendered content is empty does not begin
with a newline.  (The claim as stated fails only on that bare-newline
output, which does begin with a blank line.) -/
theorem C6_output_shape_amended :
    (∀ (fuel : Nat) (html : String) (nodes : List Node) (b : Option String)
        (r : String → String → Option String), jsTrim html = "" →
        htmlToMarkdown fuel html nodes b r = "") ∧
    (∀ (fuel : Nat) (html : String) (nodes : List Node) (b : Option String)
        (r : String → String → Option String), htmlToMarkdown fuel html nodes b r ≠ "" →
        endsWithOneNL (htmlToMarkdown fuel html nodes b r) = true) ∧
    (∀ (fuel : Nat) (html : String) (nodes : List Node) (b : Option String)
        (r : String → String → Option String), htmlToMarkdown fuel html nodes b r ≠ "" →
        htmlToMarkdown fuel html nodes b r ≠ "\n" →
        startsWithNL (htmlToMarkdown fuel html nodes b r) = false) := by
  refine ⟨?_, ?_, ?_⟩
  · intro fuel html nodes b r h
    rw [jsTrim, asString_empty_iff] at h
    rw [htmlToMarkdown, if_pos h]
  · intro fuel html nodes b r hne
    by_cases h : jsTrimCore html.toList = []
    · exact absurd (by rw [htmlToMarkdown, if_pos h]) hne
    · rw [htmlToMarkdown, if_neg h]
      exact finalizeOut_ends_one _
  · intro fuel html nodes b r hne hn1
    by_cases h : jsTrimCore html.toList = []
    · exact absurd (by rw [htmlToMarkdown, if_pos h]) hne
    · rw [htmlToMarkdown, if_neg h] at hn1 ⊢
      exact finalizeOut_starts_not_nl _ hn1

theorem C6_output_shape_amended_witness :
    htmlToMarkdown 8 " " [] none r0 = "" ∧
    endsWithOneNL (htmlToMarkdown 8 "<p>x</p>" [.elem "P" [] [.text "x"]] none r0) = true ∧
    startsWithNL (htmlToMarkdown 8 "<p>x</p>" [.elem "P" [] [.text "x"]] none r0) = false :=
  ⟨C6_output_shape_amended.1 8 " " [] none r0 (by decide),
   C6_output_shape_amended.2.1 8 "<p>x</p>" [.elem "P" [] [.text "x"]] none r0 (by decide),
   C6_output_shape_amended.2.2 8 "<p>x</p>" [.elem "P" [] [.text "x"]] none r0
     (by decide) (by decide)⟩

/-- C6 counterexample: input that is neither empty nor whitespace-only
but renders to nothing (a lone script element) yields the non-empty
output consisting of one newline, which does begin with a newline —
against the claim that non-empty outputs never begin with a blank
line. -/
theorem C6_leading_newline_counterexample :
    htmlToMarkdown 32 "<script>x</script>" [scriptNode] none r0 ≠ "" ∧
    startsWithNL (htmlToMarkdown 32 "<script>x</script>" [scriptNode] none r0) = true := by
  constructor
  · decide
  · decide

/-- C1 (amended): the nested-list example actually renders with the
nested list separated from its item's text by a continuation-indent
line and indented four spaces (two for the depth, two more because
every continuation line of an item gets an extra two-space indent), not
two; sibling items are still joined by single newlines. -/
theorem C1_nested_list_actual :
    htmlToMarkdown 32 "<ul><li>a</li><li>b<ul><li>c</li></ul></li></ul>" [ulNested] none r0 =
      "- a\n- b\n  \n    - c\n" := by
  decide

/-- C1 counterexample: the output claimed by the specification is not
what htmlToMarkdown returns on this input. -/
theorem C1_nested_list_counterexample :
    htmlToMarkdown 32 "<ul><li>a</li><li>b<ul><li>c</li></ul></li></ul>" [ulNested] none r0 ≠
      "- a\n- b\n  - c\n" := by
  decide

theorem foldl_append_all_empty (f : Node → String) :
    ∀ (nodes : List Node) (acc : String), (∀ node ∈ nodes, f node = "") →
    nodes.foldl (fun a c => a ++ f c) acc = acc := by
  intro nodes
  induction nodes with
  | nil => intro acc _; rfl
  | cons n rest ih =>
    intro acc h
    rw [List.foldl_cons]
    have hn : f n = "" := h n (List.mem_cons_self n rest)
    rw [hn]
    have hacc : acc ++ "" = acc := by
      cases acc
      show String.mk _ = String.mk _
      simp [String.append]
    rw [hacc]
    exact ih acc (fun node hm => h node (List.mem_cons_of_mem n hm))

/-- C10: when the input is neither empty nor whitespace-only but every
top-level node renders to the empty fragment, htmlToMarkdown returns
the one-character string consisting of a newline, not the empty
string. -/
theorem C10_empty_render_newline (fuel : Nat) (html : String) (nodes : List Node)
    (b : Option String) (r : String → String → Option String)
    (h : jsTrimCore html.toList ≠ [])
    (hall : ∀ node ∈ nodes, renderNode fuel node ⟨0, [], [], b, r⟩ = "") :
    htmlToMarkdown fuel html nodes b r = "\n" := by
  rw [htmlToMarkdown, if_neg h]
  show (finalizeOut (nodes.foldl
    (fun acc c => acc ++ renderNode fuel c ⟨0, [], [], b, r⟩) "").toList).asString = "\n"
  rw [foldl_append_all_empty _ nodes "" hall]
  rfl

theorem C10_empty_render_newline_witness :
    htmlToMarkdown 32 "<script>x</script>" [scriptNode] none r0 = "\n" :=
  C10_empty_render_newline 32 "<script>x</script>" [scriptNode] none r0
    (by decide) (by decide)

/-- C9: URL resolution fails open: with no base URL (absent, or the
falsy empty string) the href or src string is left untouched, and when
resolution against a base fails (the resolver oracle returns none where
the URL constructor would throw) the original unresolved string is used
verbatim.  The embedding is a total function, so no exception
escapes. -/
theorem C9_url_fail_open (r : String → String → Option String) (href b : String) :
    absolutizeUrl r href none = href ∧
    absolutizeUrl r href (some "") = href ∧
    (r href b = none → absolutizeUrl r href (some b) = href) := by
  refine ⟨rfl, rfl, ?_⟩
  intro h
  simp only [absolutizeUrl]
  by_cases hb : b = ""
  · rw [if_pos hb]
  · rw [if_neg hb, h]

theorem C9_url_fail_open_witness :
    absolutizeUrl r0 "ht!tp://x y" none = "ht!tp://x y" ∧
    absolutizeUrl r0 "ht!tp://x y" (some "") = "ht!tp://x y" ∧
    absolutizeUrl r0 "ht!tp://x y" (some "https://h/") = "ht!tp://x y" :=
  ⟨(C9_url_fail_open r0 "ht!tp://x y" "https://h/").1,
   (C9_url_fail_open r0 "ht!tp://x y" "https://h/").2.1,
   (C9_url_fail_open r0 "ht!tp://x y" "https://h/").2.2 rfl⟩

theorem append_empty_str (s : String) : s ++ "" = s := by
  cases s
  show String.mk _ = String.mk _
  simp [String.append]

theorem intercalate_go_head : ∀ (rest : List String) (acc sep : String),
    ∃ t, String.intercalate.go acc sep rest = acc ++ t := by
  intro rest
  induction rest with
  | nil =>
    intro acc sep
    exact ⟨"", by rw [String.intercalate.go, append_empty_str]⟩
  | cons b bs ih =>
    intro acc sep
    obtain ⟨t, ht⟩ := ih (acc ++ sep ++ b) sep
    refine ⟨sep ++ (b ++ t), ?_⟩
    rw [String.intercalate.go, ht]
    simp [String.append_assoc]

theorem intercalate_cons_head (sep a : String) (rest : List String) :
    ∃ t, String.intercalate sep (a :: rest) = a ++ t := by
  rw [String.intercalate]
  exact intercalate_go_head rest a sep

theorem setLast_ne_nil : ∀ (l : List Nat) (v : Nat), l ≠ [] → setLast l v ≠ [] := by
  intro l v h
  cases l with
  | nil => exact absurd rfl h
  | cons x rest =>
    cases rest with
    | nil => simp [setLast]
    | cons y ys => simp [setLast]

theorem lastCounter_setLast : ∀ (l : List Nat) (v : Nat), l ≠ [] →
    lastCounter (setLast l v) = v := by
  intro l
  induction l with
  | nil => intro v h; exact absurd rfl h
  | cons x rest ih =>
    intro v _
    cases rest with
    | nil => rfl
    | cons y ys =>
      show lastCounter (x :: setLast (y :: ys) v) = v
      cases hr : setLast (y :: ys) v with
      | nil => exact absurd hr (setLast_ne_nil _ v (by simp))
      | cons z zs =>
        rw [lastCounter, List.getLast?_cons_cons]
        have h2 := ih v (by simp)
        rw [hr, lastCounter] at h2
        exact h2

theorem intercalate_item_head (indent T D X : String) (rest : List String) :
    ∃ s, String.intercalate "\n" ((indent ++ (T ++ D) ++ X) :: rest) =
      indent ++ (T ++ (D ++ s)) := by
  obtain ⟨t, ht⟩ := intercalate_cons_head "\n" (indent ++ (T ++ D) ++ X) rest
  refine ⟨X ++ t, ?_⟩
  rw [ht]
  simp [String.append_assoc]

theorem renderListLoop_bullet : ∀ (fuel : Nat) (items : List Node) (next : Ctx)
    (indent : String) (i : Nat), next.orderedIndex ≠ [] →
    ∀ _ : i < (renderListLoop fuel items next indent true).length,
    ∃ s, (renderListLoop fuel items next indent true).getD i "" =
      indent ++ (toString (lastCounter next.orderedIndex + (i + 1)) ++ (". " ++ s)) := by
  intro fuel
  induction fuel with
  | zero =>
    intro items next indent i hne h
    simp [renderListLoop] at h
  | succ n ih =>
    intro items next indent i hne h
    cases items with
    | nil => simp [renderListLoop] at h
    | cons li rest =>
      simp only [renderListLoop] at h ⊢
      cases i with
      | zero =>
        rw [List.getD_cons_zero]
        rw [if_true]
        have h01 : lastCounter next.orderedIndex + (0 + 1) =
            lastCounter next.orderedIndex + 1 := by omega
        rw [h01]
        exact intercalate_item_head indent _ ". " _ _
      | succ j =>
        rw [List.getD_cons_succ]
        have hne2 : (setLast next.orderedIndex (lastCounter next.orderedIndex + 1)) ≠ [] :=
          setLast_ne_nil _ _ hne
        have hlen : j < (renderListLoop n rest
            ⟨next.listDepth, next.orderedStack,
              setLast next.orderedIndex (lastCounter next.orderedIndex + 1),
              next.baseUrl, next.resolve⟩ indent true).length := by
          rw [List.length_cons] at h
          omega
        obtain ⟨s, hs⟩ := ih rest
          ⟨next.listDepth, next.orderedStack,
            setLast next.orderedIndex (lastCounter next.orderedIndex + 1),
            next.baseUrl, next.resolve⟩ indent j hne2 hlen
        refine ⟨s, ?_⟩
        rw [hs]
        have hlc : lastCounter (setLast next.orderedIndex
            (lastCounter next.orderedIndex + 1)) = lastCounter next.orderedIndex + 1 :=
          lastCounter_setLast _ _ hne
        rw [hlc]
        have harith : lastCounter next.orderedIndex + 1 + (j + 1) =
            lastCounter next.orderedIndex + (j + 1 + 1) := by omega
        rw [harith]

/-- C7: in an ordered list the i-th emitted item line (zero-based)
carries the bullet of i+1 — the counter starts at one and increases by
exactly one per direct li child, whatever the item contents, since each
sibling list gets a fresh counter slot appended to the context; the
two concrete outputs show the numbering and that a second sibling
ordered list restarts at one. -/
theorem C7_ordered_list_numbering :
    (∀ (fuel : Nat) (el : Node) (ctx : Ctx) (i : Nat),
      ∀ _ : i < (orderedItemLines fuel el ctx).length,
      ∃ s, (orderedItemLines fuel el ctx).getD i "" =
        repeatStr "  " ctx.listDepth ++ (toString (i + 1) ++ (". " ++ s))) ∧
    htmlToMarkdown 32 "<ol><li>x</li><li>y</li></ol>" [olXY] none r0 = "1. x\n2. y\n" ∧
    htmlToMarkdown 32 "<ol><li>x</li><li>y</li></ol><ol><li>z</li></ol>" [olXY, olZ] none r0 =
      "1. x\n2. y\n\n1. z\n" := by
  refine ⟨?_, by decide, by decide⟩
  intro fuel el ctx i h
  rw [orderedItemLines] at h ⊢
  have hne : (⟨ctx.listDepth + 1, ctx.orderedStack ++ [true], ctx.orderedIndex ++ [0],
      ctx.baseUrl, ctx.resolve⟩ : Ctx).orderedIndex ≠ [] := by simp
  obtain ⟨s, hs⟩ := renderListLoop_bullet fuel
    ((elemChildren el).filter (fun ch => tagOf ch = "LI"))
    ⟨ctx.listDepth + 1, ctx.orderedStack ++ [true], ctx.orderedIndex ++ [0],
      ctx.baseUrl, ctx.resolve⟩
    (repeatStr "  " ctx.listDepth) i hne h
  refine ⟨s, ?_⟩
  rw [hs]
  have hlast : lastCounter ((⟨ctx.listDepth + 1, ctx.orderedStack ++ [true],
      ctx.orderedIndex ++ [0], ctx.baseUrl, ctx.resolve⟩ : Ctx).orderedIndex) = 0 := by
    show lastCounter (ctx.orderedIndex ++ [0]) = 0
    rw [lastCounter, List.getLast?_concat]
    rfl
  rw [hlast]
  have h0 : 0 + (i + 1) = i + 1 := by omega
  rw [h0]

theorem C7_ordered_list_numbering_witness :
    1 < (orderedItemLines 31 olXY ctx0).length ∧
    ∃ s, (orderedItemLines 31 olXY ctx0).getD 1 "" =
      repeatStr "  " ctx0.listDepth ++ (toString (1 + 1) ++ (". " ++ s)) :=
  ⟨by decide, C7_ordered_list_numbering.1 31 olXY ctx0 1 (by decide)⟩

theorem map_const_dashes : ∀ (l : List String),
    l.map (fun _ => "---") = List.replicate l.length "---" := by
  intro l
  induction l with
  | nil => rfl
  | cons a rest ih => simp [List.replicate, ih]

theorem stripNLGo_no_nl : ∀ (l : List Char) (b : Bool), '\n' ∉ stripNLGo b l := by
  intro l
  induction l with
  | nil => intro b; simp [stripNLGo]
  | cons c rest ih =>
    intro b
    rw [stripNLGo]
    by_cases hc : c = '\n'
    · rw [if_pos hc]
      intro hmem
      rcases List.mem_append.mp hmem with h1 | h2
      · cases b with
        | true => simp at h1
        | false => simp at h1
      · exact ih true h2
    · rw [if_neg hc]
      intro hmem
      rcases List.mem_cons.mp hmem with h1 | h2
      · exact hc h1.symm
      · exact ih false h2

theorem mem_dropTrailWS : ∀ (l : List Char) (c : Char), c ∈ dropTrailWS l → c ∈ l := by
  intro l
  induction l with
  | nil => intro c h; simp [dropTrailWS] at h
  | cons a rest ih =>
    intro c h
    rw [dropTrailWS] at h
    cases hdt : dropTrailWS rest with
    | nil =>
      rw [hdt] at h
      by_cases hw : isJsWS a = true
      · simp [hw] at h
      · simp only [Bool.not_eq_true] at hw
        simp only [hw, Bool.false_eq_true, if_false, List.mem_singleton] at h
        rw [h]
        exact List.mem_cons_self a rest
    | cons x xs =>
      rw [hdt] at h
      rcases List.mem_cons.mp h with h1 | h2
      · rw [h1]; exact List.mem_cons_self a rest
      · exact List.mem_cons_of_mem a (ih c (hdt ▸ h2))

theorem mem_jsTrimCore (l : List Char) (c : Char) (h : c ∈ jsTrimCore l) : c ∈ l := by
  have h1 : c ∈ l.dropWhile isJsWS := mem_dropTrailWS _ c h
  exact (List.dropWhile_sublist isJsWS (l := l)).mem h1

theorem cellText_no_nl : ∀ (fuel : Nat) (td : Node) (ctx : Ctx),
    '\n' ∉ (cellText fuel td ctx).toList := by
  intro fuel td ctx
  cases fuel with
  | zero => simp [cellText]
  | succ n =>
    rw [cellText]
    intro hmem
    have h1 : '\n' ∈ (stripNewlines (collapseWhitespace (trimBlankLines
        (renderInlineChildren n td ctx)))).toList := mem_jsTrimCore _ _ hmem
    exact stripNLGo_no_nl _ false h1

/-- C3 (amended): the separator row of a rendered pipe table has
exactly one bare dash-triple per header column, and every emitted row —
header or body — is the pipe line of its own cell-text list: body rows
keep their own cell count and are not padded or truncated to the
header's column count.  Each cell text is newline-free, so every rowLine
is one output line. -/
theorem C3_table_column_structure :
    (∀ (n : Nat) (table : Node) (ctx : Ctx), tableHead n table ctx ≠ [] →
      renderTable (n + 1) table ctx = String.intercalate "\n"
        (rowLine (tableHead n table ctx) ::
         rowLine (List.replicate (tableHead n table ctx).length "---") ::
         (tableBody n table ctx).map rowLine)) ∧
    (∀ (n : Nat) (td : Node) (ctx : Ctx), '\n' ∉ (cellText n td ctx).toList) := by
  refine ⟨?_, cellText_no_nl⟩
  intro n table ctx h
  rw [renderTable]
  show (if (tableHead n table ctx).isEmpty then "" else
    String.intercalate "\n" (rowLine (tableHead n table ctx) ::
      rowLine ((tableHead n table ctx).map (fun _ => "---")) ::
      (tableBody n table ctx).map rowLine)) = _
  have hempty : (tableHead n table ctx).isEmpty = false := by
    cases hh : tableHead n table ctx with
    | nil => exact absurd hh h
    | cons a rest => rfl
  rw [hempty]
  show String.intercalate "\n" (rowLine (tableHead n table ctx) ::
      rowLine ((tableHead n table ctx).map (fun _ => "---")) ::
      (tableBody n table ctx).map rowLine) = _
  rw [map_const_dashes]

theorem C3_table_column_structure_witness :
    tableHead 31 tbl3 ctx0 ≠ [] ∧
    renderTable 32 tbl3 ctx0 = String.intercalate "\n"
      (rowLine (tableHead 31 tbl3 ctx0) ::
       rowLine (List.replicate (tableHead 31 tbl3 ctx0).length "---") ::
       (tableBody 31 tbl3 ctx0).map rowLine) :=
  ⟨by decide, C3_table_column_structure.1 31 tbl3 ctx0 (by decide)⟩

/-- C3 counterexample: in the table whose th header row has two cells
and whose td body row has three, the emitted body rows are the
header row again (two columns) and the three-cell row with three
columns, so not every emitted row has the header's column count. -/
theorem C3_table_column_counterexample :
    tableHead 31 tbl3 ctx0 = ["A", "B"] ∧
    tableBody 31 tbl3 ctx0 = [["A", "B"], ["1", "2", "3"]] ∧
    renderTable 32 tbl3 ctx0 = "| A | B |\n| --- | --- |\n| A | B |\n| 1 | 2 | 3 |" ∧
    ¬ (∀ row ∈ tableBody 31 tbl3 ctx0, row.length = (tableHead 31 tbl3 ctx0).length) :=
  ⟨by decide, by decide, by decide, by decide⟩

theorem sixNine00_eq_prefixes : ∀ (l : List Char),
    sixNine00 l = (isPrefixL ['6', '0', '0'] l || isPrefixL ['7', '0', '0'] l ||
      isPrefixL ['8', '0', '0'] l || isPrefixL ['9', '0', '0'] l) := by
  intro l
  match l with
  | [] => rfl
  | [a] => simp [sixNine00, isPrefixL]
  | [a, b] => simp [sixNine00, isPrefixL]
  | a :: b :: c :: t =>
    simp only [sixNine00, isPrefixL, Bool.and_true]
    cases hB : decide ('0' = b) <;> cases hC : decide ('0' = c) <;>
      cases h6 : decide ('6' = a) <;> cases h7 : decide ('7' = a) <;>
      cases h8 : decide ('8' = a) <;> cases h9 : decide ('9' = a) <;>
      simp [hB, hC, h6, h7, h8, h9]

theorem reBoldTest_substr_iff : ∀ (v : List Char),
    reBoldTest v = (hasSubstr ['b', 'o', 'l', 'd'] v || hasSubstr ['6', '0', '0'] v ||
      hasSubstr ['7', '0', '0'] v || hasSubstr ['8', '0', '0'] v ||
      hasSubstr ['9', '0', '0'] v) := by
  intro v
  induction v with
  | nil => rfl
  | cons c rest ih =>
    rw [reBoldTest, ih, sixNine00_eq_prefixes]
    rw [hasSubstr_cons, hasSubstr_cons, hasSubstr_cons, hasSubstr_cons, hasSubstr_cons]
    cases isPrefixL ['b', 'o', 'l', 'd'] (c :: rest) <;>
      cases isPrefixL ['6', '0', '0'] (c :: rest) <;>
      cases isPrefixL ['7', '0', '0'] (c :: rest) <;>
      cases isPrefixL ['8', '0', '0'] (c :: rest) <;>
      cases isPrefixL ['9', '0', '0'] (c :: rest) <;>
      cases hasSubstr ['b', 'o', 'l', 'd'] rest <;>
      cases hasSubstr ['6', '0', '0'] rest <;>
      cases hasSubstr ['7', '0', '0'] rest <;>
      cases hasSubstr ['8', '0', '0'] rest <;>
      cases hasSubstr ['9', '0', '0'] rest <;> rfl

/-- C4 (amended): the font-weight test of the bold classifier accepts
exactly the values containing the keyword bold or one of the substrings
600, 700, 800, 900 — not every numeric value of six hundred or more
(650 is rejected); an element so classified (here a span whose style
reaches the emphasis branch) gets its recursively rendered inline
content wrapped in double-asterisk markers. -/
theorem C4_bold_classifier_amended :
    (∀ v : List Char, reBoldTest v =
      (hasSubstr ['b', 'o', 'l', 'd'] v || hasSubstr ['6', '0', '0'] v ||
       hasSubstr ['7', '0', '0'] v || hasSubstr ['8', '0', '0'] v ||
       hasSubstr ['9', '0', '0'] v)) ∧
    (∀ (fuel : Nat) (attrs : List (String × String)) (cs : List Node) (ctx : Ctx),
      isBoldLike (.elem "SPAN" attrs cs) = true →
      isItalicLike (.elem "SPAN" attrs cs) = false →
      isStrikeLike (.elem "SPAN" attrs cs) = false →
      renderNode (fuel + 1) (.elem "SPAN" attrs cs) ctx =
        "**" ++ renderInlineChildren fuel (.elem "SPAN" attrs cs) ctx ++ "**") ∧
    isBoldLike (.elem "SPAN" [("style", "font-weight:600")] []) = true ∧
    isBoldLike (.elem "SPAN" [("style", "font-weight:650")] []) = false := by
  refine ⟨reBoldTest_substr_iff, ?_, by decide, by decide⟩
  intro fuel attrs cs ctx hb hi hs
  have hh : isHeadingTag "SPAN" = false := by decide
  simp only [renderNode]
  simp [hb, hi, hs, hh]

theorem C4_bold_classifier_amended_witness :
    reBoldTest ("font-weight:600").toList = true ∧
    renderNode 5 (.elem "SPAN" [("style", "font-weight:700")] [.text "y"]) ctx0 =
      "**" ++ renderInlineChildren 4 (.elem "SPAN" [("style", "font-weight:700")] [.text "y"]) ctx0 ++ "**" :=
  ⟨by rw [C4_bold_classifier_amended.1]; decide,
   C4_bold_classifier_amended.2.1 4 [("style", "font-weight:700")] [.text "y"] ctx0
     (by decide) (by decide) (by decide)⟩

/-- C4 counterexample: a span whose style sets font-weight to 650 — a
numeric value of at least six hundred — is not classified bold, and its
text child renders without any emphasis markers. -/
theorem C4_bold_650_counterexample :
    isBoldLike span650 = false ∧ renderNode 9 span650 ctx0 = "x" :=
  ⟨by decide, by decide⟩

theorem wellEscaped_escapeMd : ∀ (l : List Char), wellEscaped (escapeMdCore l) = true := by
  intro l
  induction l with
  | nil => rfl
  | cons c rest ih =>
    rw [escapeMdCore]
    by_cases hb : c = '\\'
    · rw [if_pos hb]
      show wellEscaped ('\\' :: '\\' :: escapeMdCore rest) = true
      rw [wellEscaped, if_pos rfl]
      exact ih
    · rw [if_neg hb]
      by_cases ht : isEscTarget c = true
      · rw [if_pos ht]
        show wellEscaped ('\\' :: c :: escapeMdCore rest) = true
        rw [wellEscaped, if_pos rfl]
        exact ih
      · rw [if_neg ht]
        show wellEscaped (c :: escapeMdCore rest) = true
        simp only [Bool.not_eq_true] at ht
        cases hX : escapeMdCore rest with
        | nil =>
          rw [wellEscaped, ht]
          simp [hb]
        | cons d ds =>
          rw [wellEscaped, if_neg hb, ht]
          rw [hX] at ih
          rw [ih]
          rfl

/-- C5: outside code and pre, text-node characters pass through escapeMd,
whose output has every Markdown-significant character (the escape
targets and the backslash itself) only as the second character of a
backslash pair — so every such character originating from the text is
preceded by a backslash; an inline code element emits its textContent
verbatim between backtick delimiters with no escaping, and a pre
element emits its (line-ending-normalized) literal text inside the
fence with no escaping. -/
theorem C5_escaping_outside_code :
    (∀ l : List Char, wellEscaped (escapeMdCore l) = true) ∧
    (∀ (fuel : Nat) (s : String) (ctx : Ctx),
      renderNode (fuel + 1) (.text s) ctx = escapeMd (textWS s)) ∧
    (∀ (fuel : Nat) (attrs : List (String × String)) (cs : List Node) (ctx : Ctx),
      renderNode (fuel + 1) (.elem "CODE" attrs cs) ctx =
        (if hasSubstrS "`" (textContentOf (.elem "CODE" attrs cs)) then "``" else "`") ++
        textContentOf (.elem "CODE" attrs cs) ++
        (if hasSubstrS "`" (textContentOf (.elem "CODE" attrs cs)) then "``" else "`")) ∧
    (∀ (fuel : Nat) (attrs : List (String × String)) (cs : List Node) (ctx : Ctx),
      renderNode (fuel + 1) (.elem "PRE" attrs cs) ctx =
        "\n\n" ++ codeFence
          (crlfNorm (match queryDesc "CODE" (.elem "PRE" attrs cs) with
            | some c => textContentOf c
            | none => textContentOf (.elem "PRE" attrs cs)))
          (match queryDesc "CODE" (.elem "PRE" attrs cs) with
            | some c => getCodeLang c
            | none => none) ++ "\n\n") :=
  ⟨wellEscaped_escapeMd, fun _ _ _ => rfl, fun _ _ _ _ => rfl, fun _ _ _ _ => rfl⟩

/-- C8: whenever the dispatcher reaches the emphasis branch (the tag is
none of the specially handled ones) and at least one classifier
matches, the output is the emphasis wrap of the recursively rendered
inline content: bold markers applied first and innermost, then italic,
then strike outermost, each independently around the same content — a
bold-and-italic span renders as triple asterisks around the content
with the double-asterisk pair innermost, never as nested distinct
elements. -/
theorem C8_emphasis_marker_order :
    (∀ (fuel : Nat) (tag : String) (attrs : List (String × String)) (cs : List Node)
        (ctx : Ctx),
      tag ∉ ["SCRIPT", "STYLE", "NOSCRIPT", "META", "LINK", "BR", "HR", "IMG", "A",
        "CODE", "PRE", "BLOCKQUOTE", "UL", "OL", "TABLE"] →
      isHeadingTag tag = false →
      (isBoldLike (.elem tag attrs cs) || isItalicLike (.elem tag attrs cs) ||
        isStrikeLike (.elem tag attrs cs)) = true →
      renderNode (fuel + 1) (.elem tag attrs cs) ctx =
        emphasisWrap (.elem tag attrs cs)
          (renderInlineChildren fuel (.elem tag attrs cs) ctx)) ∧
    renderNode 9 spanBoldItalic ctx0 = "***x***" ∧
    renderNode 9 spanBoldItalic ctx0 =
      "*" ++ ("**" ++ renderInlineChildren 8 spanBoldItalic ctx0 ++ "**") ++ "*" := by
  refine ⟨?_, by decide, by decide⟩
  intro fuel tag attrs cs ctx hmem hh he
  simp only [List.mem_cons, List.not_mem_nil, or_false, not_or] at hmem
  obtain ⟨hScript, hStyle, hNoscript, hMeta, hLink, hBr, hHr, hImg, hA, hCode, hPre,
    hBq, hUl, hOl, hTable⟩ := hmem
  simp only [renderNode]
  rw [if_neg (by tauto : ¬(tag = "SCRIPT" ∨ tag = "STYLE" ∨ tag = "NOSCRIPT" ∨
    tag = "META" ∨ tag = "LINK"))]
  rw [if_neg hBr, if_neg hHr, if_neg hImg, if_neg hA, if_neg hCode, if_neg hPre]
  rw [if_neg (by simp [hh] : ¬isHeadingTag tag = true)]
  rw [if_neg hBq, if_neg hUl, if_neg hOl, if_neg hTable]
  rw [if_pos he]
  rfl

theorem C8_emphasis_marker_order_witness :
    renderNode 7 (.elem "B" [("style", "font-style:italic")] [.text "w"]) ctx0 =
      emphasisWrap (.elem "B" [("style", "font-style:italic")] [.text "w"])
        (renderInlineChildren 6 (.elem "B" [("style", "font-style:italic")] [.text "w"]) ctx0) :=
  C8_emphasis_marker_order.1 6 "B" [("style", "font-style:italic")] [.text "w"] ctx0
    (by decide) (by decide) (by decide)
